import Mathlib

/-!
Shallow embedding of the sustaining-audit Flask application
(`sustaining_audit_app.py`): the four persisted tables, the checklist
operations, audit creation (with its two separate commits), listing with
percentage aggregation, deletion, and the two spreadsheet exports.

Modelling conventions:
* Machine integers are `Nat`; nullable columns are `Option`.
* The SQLite database is a `DBState` of row lists in insertion order;
  row ids are assigned from monotone counters (SQLite rowid assignment).
* `datetime.date` values are carried as their ISO strings: no claim here
  depends on calendar arithmetic, and ISO strings compare like dates.
* Percentage arithmetic is modelled exactly over `ℚ` (the Python code
  computes the same expressions in floating point).
* Fallible handlers return `Except AppError`; `AppError.notFound` is
  Flask's `get_or_404` 404 response, `AppError.internalError` is an
  unhandled Python exception (HTTP 500).
-/

/-- Characters Python `str.split()` / `str.strip()` treat as whitespace,
restricted to ASCII (the `secure_filename` pipeline has already removed
non-ASCII characters when splitting happens). -/
def pySpaceChar (c : Char) : Bool :=
  c == ' ' || c == '\t' || c == '\n' || c == '\x0b' || c == '\x0c' || c == '\r' ||
  c == '\x1c' || c == '\x1d' || c == '\x1e' || c == '\x1f'

/-- Drop characters satisfying `p` from the end of a list. -/
def dropTrailing (p : Char → Bool) (l : List Char) : List Char :=
  (l.reverse.dropWhile p).reverse

/-- Python `str.strip()`: whitespace removed from both ends. -/
def pyStrip (s : String) : String :=
  ⟨dropTrailing pySpaceChar (s.data.dropWhile pySpaceChar)⟩

/-- Little-endian decimal digit characters of `n`; the first argument is
recursion fuel (`n` itself suffices, since `n / 10 < n`). -/
def natCharsAux : Nat → Nat → List Char
  | 0, _ => []
  | _ + 1, 0 => []
  | fuel + 1, n + 1 => Char.ofNat (48 + (n + 1) % 10) :: natCharsAux fuel ((n + 1) / 10)

/-- Decimal digit characters of `n`, most significant first: Python
`str(n)` as used by the f-string `f"{audit.id}_{item.id}_{photo.filename}"`. -/
def natChars (n : Nat) : List Char :=
  if n = 0 then ['0'] else (natCharsAux n n).reverse

/-- Characters kept by werkzeug's `_filename_ascii_strip_re` (the regex
deletes everything outside `[A-Za-z0-9_.-]`). -/
def keepChar (c : Char) : Bool :=
  c.isAlpha || c.isDigit || c == '_' || c == '.' || c == '-'

/-- Characters stripped from both ends by `.strip("._")` in `secure_filename`. -/
def stripEdgeChar (c : Char) : Bool := c == '.' || c == '_'

/-- Werkzeug `secure_filename` step 1: `unicodedata.normalize("NFKD", s)`
followed by `.encode("ascii", "ignore")`. Modelled as discarding non-ASCII
code points (exact for ASCII input; NFKD folding of non-ASCII letters is
not reproduced, which only affects which ASCII letters survive, never the
digit/underscore prefix this development reasons about). -/
def asciiOnly (l : List Char) : List Char :=
  l.filter (fun c => decide (c.toNat < 128))

/-- Werkzeug `secure_filename` step 2: `filename.replace(os.sep, " ")`
(`os.path.altsep` is `None` on posix, so only `/` is replaced). -/
def sepToSpace (l : List Char) : List Char :=
  l.map (fun c => if c == '/' then ' ' else c)

/-- Python `str.split()` (no separator): split on whitespace runs,
producing no empty tokens. -/
def wsTokens (l : List Char) : List (List Char) :=
  (l.splitOnP pySpaceChar).filter (fun t => !t.isEmpty)

/-- Werkzeug `secure_filename` step 3: `"_".join(filename.split())`. -/
def underscoreJoin (ts : List (List Char)) : List Char :=
  List.intercalate ['_'] ts

/-- Werkzeug `secure_filename` final step: `.strip("._")`. -/
def stripEdges (l : List Char) : List Char :=
  dropTrailing stripEdgeChar (l.dropWhile stripEdgeChar)

/-- `werkzeug.utils.secure_filename` on posix: ASCII fold, path separator
to space, whitespace runs to single underscores, delete characters outside
`[A-Za-z0-9_.-]`, then strip `.` and `_` from both ends. (The Windows
device-name branch is dead on posix.) -/
def secure_filename (s : String) : String :=
  ⟨stripEdges ((underscoreJoin (wsTokens (sepToSpace (asciiOnly s.data)))).filter keepChar)⟩

/-- Stored photo name in `new_audit`:
`secure_filename(f"{audit.id}_{item.id}_{photo.filename}")`. -/
def derived_photo_filename (aid iid : Nat) (orig : String) : String :=
  secure_filename ⟨natChars aid ++ '_' :: (natChars iid ++ '_' :: orig.data)⟩

/-- Row of the `category` table (`class Category`). -/
structure CategoryRow where
  id : Nat
  name : String
deriving DecidableEq, Repr

/-- Row of the `checklist_item` table (`class ChecklistItem`). -/
structure ChecklistItemRow where
  id : Nat
  category_id : Nat
  text : String
  original_spec : Option String
deriving DecidableEq, Repr

/-- Row of the `audit` table (`class Audit`); `created_at` is omitted,
no behaviour reads it. -/
structure AuditRow where
  id : Nat
  vendor : String
  audit_date : String
  audit_area : String
deriving DecidableEq, Repr

/-- Row of the `audit_item` table (`class AuditItem`). -/
structure AuditItemRow where
  id : Nat
  audit_id : Nat
  checklist_item_id : Nat
  score : Option Nat
  record : Option String
  photo_filename : Option String
deriving DecidableEq, Repr

/-- The persisted state: the four tables in insertion order, the upload
folder contents, and the next rowid of each table. -/
structure DBState where
  categories : List CategoryRow
  checklist_items : List ChecklistItemRow
  audits : List AuditRow
  audit_items : List AuditItemRow
  files : List String
  nextCategoryId : Nat
  nextChecklistItemId : Nat
  nextAuditId : Nat
  nextAuditItemId : Nat
deriving DecidableEq, Repr

/-- How a request can fail: `notFound` is the 404 produced by
`get_or_404`, `internalError` an unhandled Python exception (HTTP 500). -/
inductive AppError where
  | notFound
  | internalError
deriving DecidableEq, Repr

/-- `POST /checklist` with `category_name`: strip, reject empty or
existing name (SQLite `=` on TEXT is case-sensitive binary comparison),
otherwise insert. Returns the new state and the flashed message. -/
def add_category (st : DBState) (category_name : String) : DBState × String :=
  let name := pyStrip category_name
  if name != "" && (st.categories.find? (fun c => c.name == name)).isNone then
    ({ st with
        categories := st.categories ++ [⟨st.nextCategoryId, name⟩],
        nextCategoryId := st.nextCategoryId + 1 },
     "Category added")
  else
    (st, "Category exists or empty")

/-- `POST /checklist` with `item_id`: `ChecklistItem.query.get` returns
`None` for an unknown id, and the following `item.text = ...` assignment
then raises `AttributeError` (HTTP 500, nothing committed). Otherwise text
and original spec are overwritten verbatim (no strip, no emptiness
check; `original_spec` defaults to `""` via `request.form.get`). -/
def update_checklist_item (st : DBState) (item_id : Nat)
    (item_text : String) (original_spec : String) :
    Except AppError (DBState × String) :=
  match st.checklist_items.find? (fun i => i.id == item_id) with
  | none => .error .internalError
  | some _ =>
    .ok ({ st with
            checklist_items := st.checklist_items.map fun i =>
              if i.id == item_id then
                { i with text := item_text, original_spec := some original_spec }
              else i },
         "Checklist item updated")

/-- `POST /checklist` with `item_text`: strip text and spec; insert only
when the stripped text is nonempty (silent no-op otherwise). -/
def add_checklist_item (st : DBState) (category_id : Nat)
    (item_text original_spec : String) : DBState :=
  let text := pyStrip item_text
  let ospec := pyStrip original_spec
  if text != "" then
    { st with
        checklist_items :=
          st.checklist_items ++ [⟨st.nextChecklistItemId, category_id, text, some ospec⟩],
        nextChecklistItemId := st.nextChecklistItemId + 1 }
  else st

/-- Follow `ai.checklist_item` (foreign key). A dangling reference would
raise `AttributeError` in Python; the default row is outside the
well-formed states the theorems quantify over. -/
def checklist_item_of (st : DBState) (ai : AuditItemRow) : ChecklistItemRow :=
  (st.checklist_items.find? (fun i => i.id == ai.checklist_item_id)).getD
    ⟨0, 0, "", none⟩

/-- Follow `ci.category` and read its name (dangling reference as above). -/
def category_name_of (st : DBState) (ci : ChecklistItemRow) : String :=
  ((st.categories.find? (fun c => c.id == ci.category_id)).map (fun c => c.name)).getD ""

/-- Follow `ai.audit` (dangling reference as above). -/
def audit_of (st : DBState) (ai : AuditItemRow) : AuditRow :=
  (st.audits.find? (fun a => a.id == ai.audit_id)).getD ⟨0, "", "", ""⟩

/-- The SQLAlchemy filter `AuditItem.score != 3` compiles to the SQL
predicate `score != 3`, which under three-valued logic is unknown — hence
not selected — when `score` is NULL: a NULL-scored row does NOT pass. -/
def milFilter (ai : AuditItemRow) : Bool :=
  match ai.score with
  | none => false
  | some s => s != 3

/-- Status column of a MIL row:
`'Open' if ai.score is None or ai.score < 3 else 'Closed'`. -/
def milStatus (score : Option Nat) : String :=
  match score with
  | none => "Open"
  | some s => if s < 3 then "Open" else "Closed"

/-- One row of the MIL spreadsheet. -/
structure MilRow where
  no : Nat
  checking_item : String
  category : String
  record : String
  status : String
  action : String
  vendor_dri : String
  due_date : String
  closed_date : String
  remark : String
deriving DecidableEq, Repr

/-- `GET /export_mil`: filter all audit items by `score != 3` (SQL
three-valued semantics, see `milFilter`), order by `AuditItem.id`,
enumerate from 1. `none` models the `'No MIL items.'` flash-and-redirect
taken when no row matches; otherwise the spreadsheet rows are produced. -/
def export_mil (st : DBState) : Option (List MilRow) :=
  let q := (st.audit_items.filter milFilter).insertionSort
    (fun a b => a.id ≤ b.id)
  let rows := (List.enumFrom 1 q).map fun p =>
    { no := p.1,
      checking_item := (checklist_item_of st p.2).text,
      category := category_name_of st (checklist_item_of st p.2),
      record := p.2.record.getD "",
      status := milStatus p.2.score,
      action := "",
      vendor_dri := (audit_of st p.2).vendor,
      due_date := "",
      closed_date := "",
      remark := "" }
  if rows.isEmpty then none else some rows

/-- One row of the single-audit export spreadsheet. -/
structure AuditExportRow where
  no : Nat
  category : String
  checking_item : String
  score : Option Nat
  record : String
  vendor : String
  audit_date : String
  audit_area : String
deriving DecidableEq, Repr

/-- `GET /audits/export/<id>`: 404 via `get_or_404` when the audit does
not exist; otherwise one row per owned audit item (backref order =
insertion order), enumerated from 1. -/
def export_audit (st : DBState) (audit_id : Nat) :
    Except AppError (List AuditExportRow) :=
  match st.audits.find? (fun a => a.id == audit_id) with
  | none => .error .notFound
  | some a =>
    .ok ((List.enumFrom 1 (st.audit_items.filter (fun ai => ai.audit_id == audit_id))).map
      fun p =>
        { no := p.1,
          category := category_name_of st (checklist_item_of st p.2),
          checking_item := (checklist_item_of st p.2).text,
          score := p.2.score,
          record := p.2.record.getD "",
          vendor := a.vendor,
          audit_date := a.audit_date,
          audit_area := a.audit_area })

/-- `os.remove` inside `try/except: pass`: the file with that name is
removed when present; a missing file changes nothing (the exception is
swallowed), so the operation is total. -/
def os_remove (files : List String) (f : String) : List String :=
  files.filter (fun g => g != f)

/-- `GET /audits/delete/<id>`: 404 via `get_or_404` when the audit does
not exist; otherwise every owned audit item's photo file is best-effort
removed, all owned audit-item rows and then the audit row are deleted,
and the transaction commits. -/
def delete_audit (st : DBState) (audit_id : Nat) : Except AppError DBState :=
  match st.audits.find? (fun a => a.id == audit_id) with
  | none => .error .notFound
  | some _ =>
    let owned := st.audit_items.filter (fun ai => ai.audit_id == audit_id)
    let files := owned.foldl
      (fun fs ai =>
        match ai.photo_filename with
        | some f => os_remove fs f
        | none => fs)
      st.files
    .ok { st with
      audits := st.audits.filter (fun a => a.id != audit_id),
      audit_items := st.audit_items.filter (fun ai => ai.audit_id != audit_id),
      files := files }

/-- Per-category accumulator of `audits_list`: the `category_scores`
dict, an insertion-ordered map from category name to (sum, count).
`if ai.score is not None: sum += ai.score` adds 0 for an unscored item;
the count always increments. -/
def addToCats (acc : List (String × Nat × Nat)) (cat : String) (score : Option Nat) :
    List (String × Nat × Nat) :=
  match acc with
  | [] => [(cat, score.getD 0, 1)]
  | (c, s, k) :: rest =>
    if c = cat then (c, s + score.getD 0, k + 1) :: rest
    else (c, s, k) :: addToCats rest cat score

/-- The percentage expression
`(sum / (count*3) * 100) if count else 0`, over `ℚ`. -/
def pct (s k : Nat) : ℚ :=
  if k = 0 then 0 else (s : ℚ) / ((k : ℚ) * 3) * 100

/-- What `/audits` displays for one audit: header fields, the per-category
percentages in first-appearance order, and the total percentage. -/
structure AuditSummary where
  vendor : String
  audit_date : String
  audit_area : String
  category_pcts : List (String × ℚ)
  total_pct : ℚ
deriving DecidableEq, Repr

/-- The body of the `for a in audits` loop in `audits_list`: walk
`a.audit_items`, build `category_scores`, total score and item count,
then render percentages. -/
def summarize (st : DBState) (a : AuditRow) : AuditSummary :=
  let itemsA := st.audit_items.filter (fun ai => ai.audit_id == a.id)
  let cats := itemsA.foldl
    (fun acc ai => addToCats acc (category_name_of st (checklist_item_of st ai)) ai.score) []
  let total_score := itemsA.foldl (fun t ai => t + ai.score.getD 0) 0
  let total_items := itemsA.length
  { vendor := a.vendor,
    audit_date := a.audit_date,
    audit_area := a.audit_area,
    category_pcts := cats.map (fun p => (p.1, pct p.2.1 p.2.2)),
    total_pct := pct total_score total_items }

/-- `GET /audits`: audits ordered by `audit_date` descending (ISO strings
compare like dates; order among equal dates is unspecified by SQL and
fixed here by the sort), each summarized. -/
def audits_list (st : DBState) : List AuditSummary :=
  (st.audits.insertionSort (fun a b => b.audit_date ≤ a.audit_date)).map (summarize st)

/-- First half of `new_audit`'s POST branch, up to and including the FIRST
`db.session.commit()`: the `Audit` header row alone is inserted and made
durable (the commit is what assigns/fixes `audit.id`). This state is what
persists if execution stops before the second commit. -/
def new_audit_header (st : DBState) (vendor audit_date audit_area : String) : DBState :=
  { st with
      audits := st.audits ++ [⟨st.nextAuditId, vendor, audit_date, audit_area⟩],
      nextAuditId := st.nextAuditId + 1 }

/-- One iteration of the `for item in items` loop: save the photo (if one
was uploaded with a nonempty filename) under the derived name, then add
the `AuditItem` row with the submitted score (absent or empty score field
stores NULL), note, and photo filename. -/
def new_audit_add_item (aid : Nat) (score : Nat → Option Nat)
    (record : Nat → Option String) (photo : Nat → Option String)
    (st : DBState) (item : ChecklistItemRow) : DBState :=
  let filename := (photo item.id).map (fun orig => derived_photo_filename aid item.id orig)
  { st with
      audit_items := st.audit_items ++
        [⟨st.nextAuditItemId, aid, item.id, score item.id, record item.id, filename⟩],
      nextAuditItemId := st.nextAuditItemId + 1,
      files :=
        match filename with
        | some f => st.files ++ [f]
        | none => st.files }

/-- Full `POST /audits/new`: the header is committed first (see
`new_audit_header`), then the item loop runs over the checklist queried at
the start of the request and a SECOND `db.session.commit()` makes all
`AuditItem` rows durable at once. `score`, `record`, `photo` map a
checklist-item id to its submitted form value (`none` for an absent or
empty field; `photo` carries the original upload filename). -/
def new_audit (st : DBState) (vendor audit_date audit_area : String)
    (score : Nat → Option Nat) (record : Nat → Option String)
    (photo : Nat → Option String) : DBState :=
  let st1 := new_audit_header st vendor audit_date audit_area
  st.checklist_items.foldl (new_audit_add_item st.nextAuditId score record photo) st1

/-!
Specification-side helpers (used to state the claims, compared against the
code-side definitions above) and proof-side parsing helpers.
-/

/-- Numeric value of a decimal digit character. -/
def digitVal (c : Char) : Nat := c.toNat - 48

/-- Value of a little-endian list of decimal digit characters
(left inverse of `natCharsAux`). -/
def charsToNat : List Char → Nat
  | [] => 0
  | c :: rest => digitVal c + 10 * charsToNat rest

/-- Recover the two leading underscore-separated decimal fields of a
derived photo filename: the digits before the first non-digit, and the
digits after the separator. -/
def parseIds (l : List Char) : List Char × List Char :=
  (l.takeWhile Char.isDigit, ((l.dropWhile Char.isDigit).drop 1).takeWhile Char.isDigit)

/-- The (category name, score) pair of every audit item of audit `aid`,
in storage order: the data `audits_list` aggregates per category. -/
def catScorePairs (st : DBState) (aid : Nat) : List (String × Option Nat) :=
  (st.audit_items.filter (fun ai => ai.audit_id == aid)).map
    (fun ai => (category_name_of st (checklist_item_of st ai), ai.score))

/-- Sum of the scores carried by pairs of category `c`, an unscored item
counting as 0 (the spec's "sum of the category's scores"). -/
def catSum (c : String) (L : List (String × Option Nat)) : Nat :=
  ((L.filter (fun p => p.1 == c)).map (fun p => p.2.getD 0)).sum

/-- Number of pairs of category `c` (the spec's "number of items in that
category"). -/
def catCount (c : String) (L : List (String × Option Nat)) : Nat :=
  (L.filter (fun p => p.1 == c)).length

/-- Lookup in the `category_scores` accumulator by category name. -/
def lookupCat (acc : List (String × Nat × Nat)) (c : String) :
    Option (String × Nat × Nat) :=
  acc.find? (fun p => p.1 == c)

/-- The `AuditItem` rows the item loop of `new_audit` inserts for audit
`aid`, with row ids counting up from `k`: the closed form proved equal to
the loop's effect. -/
def mkAuditItems (aid : Nat) (score : Nat → Option Nat)
    (record : Nat → Option String) (photo : Nat → Option String)
    (k : Nat) : List ChecklistItemRow → List AuditItemRow
  | [] => []
  | it :: rest =>
    ⟨k, aid, it.id, score it.id, record it.id,
      (photo it.id).map (fun orig => derived_photo_filename aid it.id orig)⟩ ::
      mkAuditItems aid score record photo (k + 1) rest

/-- Concrete database: one category "Safety" with three checklist items,
one audit whose items are scored 3, 0 and NULL (the spec's `[3,0,null]`
example). -/
def sampleState : DBState :=
  { categories := [⟨1, "Safety"⟩],
    checklist_items :=
      [⟨1, 1, "item one", none⟩, ⟨2, 1, "item two", none⟩, ⟨3, 1, "item three", none⟩],
    audits := [⟨1, "V", "2024-01-01", "A"⟩],
    audit_items :=
      [⟨1, 1, 1, some 3, none, none⟩, ⟨2, 1, 2, some 0, none, none⟩,
       ⟨3, 1, 3, none, none, none⟩],
    files := [],
    nextCategoryId := 2, nextChecklistItemId := 4, nextAuditId := 2, nextAuditItemId := 4 }

/-- Concrete database with two audits, the first owning a photo file. -/
def sampleState2 : DBState :=
  { categories := [⟨1, "Safety"⟩],
    checklist_items := [⟨1, 1, "item one", none⟩],
    audits := [⟨1, "V", "2024-01-01", "A"⟩, ⟨2, "W", "2024-02-02", "B"⟩],
    audit_items :=
      [⟨1, 1, 1, some 1, none, some "1_1_photo.jpg"⟩, ⟨2, 2, 1, some 2, none, none⟩],
    files := ["1_1_photo.jpg"],
    nextCategoryId := 2, nextChecklistItemId := 2, nextAuditId := 3, nextAuditItemId := 3 }

/-!
General helper lemmas.
-/

/-- A map that fixes every member of a list is the identity on it. -/
theorem map_id_of_mem {α : Type} {f : α → α} {l : List α} (h : ∀ a ∈ l, f a = a) :
    l.map f = l := by
  induction l with
  | nil => rfl
  | cons a t ih =>
    simp only [List.map_cons, h a (List.mem_cons_self a t)]
    rw [ih (fun b hb => h b (List.mem_cons_of_mem a hb))]

/-- Effect of `update_checklist_item` when the item id exists: the matching
row's text and original-spec fields are overwritten verbatim, every other
row and table is unchanged. -/
theorem update_checklist_item_found (st : DBState) (item_id : Nat)
    (text ospec : String) (it : ChecklistItemRow)
    (h : st.checklist_items.find? (fun i => i.id == item_id) = some it) :
    ∃ st', update_checklist_item st item_id text ospec
        = Except.ok (st', "Checklist item updated") ∧
      (∀ j ∈ st'.checklist_items, j.id = item_id →
        j.text = text ∧ j.original_spec = some ospec) ∧
      (∀ j ∈ st.checklist_items, j.id ≠ item_id → j ∈ st'.checklist_items) ∧
      st'.checklist_items.length = st.checklist_items.length ∧
      st'.categories = st.categories ∧ st'.audits = st.audits ∧
      st'.audit_items = st.audit_items ∧ st'.files = st.files := by
  refine ⟨{ st with checklist_items := st.checklist_items.map fun i =>
      if i.id == item_id then { i with text := text, original_spec := some ospec }
      else i },
    by simp only [update_checklist_item, h], ?_, ?_, ?_, rfl, rfl, rfl, rfl⟩
  · intro j hj hid
    rw [List.mem_map] at hj
    obtain ⟨i, hi, rfl⟩ := hj
    by_cases hb : (i.id == item_id) = true
    · rw [if_pos hb]
      exact ⟨rfl, rfl⟩
    · rw [if_neg hb] at hid ⊢
      exact absurd (beq_iff_eq.mpr hid) hb
  · intro j hj hne
    have hfix : (if j.id == item_id then
        { j with text := text, original_spec := some ospec } else j) = j := by
      rw [if_neg (fun hb => hne (beq_iff_eq.mp hb))]
    exact hfix ▸ List.mem_map_of_mem _ hj
  · exact List.length_map _ _

/-!
C1 — MIL export and NULL scores.
-/

/-- C1 (code bug evidence): the SQLAlchemy filter `AuditItem.score != 3`
compiles to a SQL comparison that is unknown — hence not selected — for a
NULL score, so an unscored item never reaches the MIL export. In
`sampleState` an unscored row exists ("item three"), yet the export
contains only the score-0 "item two" row; the claim (and the dead
`ai.score is None` branch of the status expression) says the unscored row
should be included. -/
theorem export_mil_excludes_null_scores :
    (∃ ai ∈ sampleState.audit_items, ai.score = none ∧ ai.checklist_item_id = 3) ∧
    export_mil sampleState =
      some [{ no := 1, checking_item := "item two", category := "Safety", record := "",
              status := "Open", action := "", vendor_dri := "V", due_date := "",
              closed_date := "", remark := "" }] := by
  decide

/-!
C3 — updating a checklist item that does not exist.
-/

/-- C3 counterexample: with an item id that references no checklist item
(id 99 in `sampleState`), the update does NOT terminate with a not-found
response; `ChecklistItem.query.get` returns `None` and the attribute
assignment `item.text = ...` raises `AttributeError` (HTTP 500). -/
theorem update_checklist_item_missing_cex :
    update_checklist_item sampleState 99 "t" "s" = Except.error AppError.internalError ∧
    update_checklist_item sampleState 99 "t" "s" ≠ Except.error AppError.notFound := by
  have h : update_checklist_item sampleState 99 "t" "s"
      = Except.error AppError.internalError := by rfl
  refine ⟨h, ?_⟩
  rw [h]
  simp

/-- C3 amended: an unknown item id makes `update_checklist_item` fail with
an internal error (unhandled `AttributeError`, HTTP 500), not with a
not-found response; nothing is committed, so stored rows are unchanged.
An existing item id gets its text and original-spec fields overwritten,
with every other row and table untouched. -/
theorem update_checklist_item_spec (st : DBState) (item_id : Nat) (text ospec : String) :
    (st.checklist_items.find? (fun i => i.id == item_id) = none →
      update_checklist_item st item_id text ospec = Except.error AppError.internalError) ∧
    (∀ it, st.checklist_items.find? (fun i => i.id == item_id) = some it →
      ∃ st', update_checklist_item st item_id text ospec
          = Except.ok (st', "Checklist item updated") ∧
        (∀ j ∈ st'.checklist_items, j.id = item_id →
          j.text = text ∧ j.original_spec = some ospec) ∧
        (∀ j ∈ st.checklist_items, j.id ≠ item_id → j ∈ st'.checklist_items) ∧
        st'.checklist_items.length = st.checklist_items.length ∧
        st'.categories = st.categories ∧ st'.audits = st.audits ∧
        st'.audit_items = st.audit_items ∧ st'.files = st.files) := by
  constructor
  · intro h
    simp only [update_checklist_item, h]
  · intro it h
    exact update_checklist_item_found st item_id text ospec it h

/-- Witness for `update_checklist_item_spec` at a concrete state. -/
theorem update_checklist_item_spec_witness :
    ∃ st', update_checklist_item sampleState 2 "edited" "spec"
        = Except.ok (st', "Checklist item updated") ∧
      ∀ j ∈ st'.checklist_items, j.id = 2 →
        j.text = "edited" ∧ j.original_spec = some "spec" := by
  obtain ⟨st', h1, h2, -⟩ :=
    (update_checklist_item_spec sampleState 2 "edited" "spec").2
      ⟨2, 1, "item two", none⟩ (by decide)
  exact ⟨st', h1, h2⟩

/-!
C7 — adding a category.
-/

/-- A category whose stripped name already exists is rejected: the state
is returned unchanged with the rejection message. -/
theorem add_category_of_exists (st : DBState) (name : String)
    (h : ∃ c ∈ st.categories, c.name = pyStrip name) :
    add_category st name = (st, "Category exists or empty") := by
  obtain ⟨c, hc, hname⟩ := h
  have hsome : (st.categories.find? (fun c => c.name == pyStrip name)).isSome = true :=
    List.find?_isSome.mpr ⟨c, hc, beq_iff_eq.mpr hname⟩
  rcases hfind : st.categories.find? (fun c => c.name == pyStrip name) with - | d
  · rw [hfind] at hsome; cases hsome
  · simp [add_category, hfind]

/-- C7: `add_category` strips its input; an empty stripped name or an
existing category with exactly that name (case-sensitive string equality)
makes it a no-op returning the user-visible rejection message; otherwise
it appends one row. A second call with the same raw name is rejected and
the table then holds exactly one row with that name. -/
theorem add_category_spec (st : DBState) (name : String) :
    (pyStrip name = "" ∨ (∃ c ∈ st.categories, c.name = pyStrip name) →
      add_category st name = (st, "Category exists or empty")) ∧
    (pyStrip name ≠ "" → (∀ c ∈ st.categories, c.name ≠ pyStrip name) →
      (add_category st name).1.categories
          = st.categories ++ [⟨st.nextCategoryId, pyStrip name⟩] ∧
      (add_category st name).2 = "Category added" ∧
      ((add_category st name).1.categories.filter
          (fun c => c.name == pyStrip name)).length = 1 ∧
      add_category (add_category st name).1 name
          = ((add_category st name).1, "Category exists or empty")) := by
  constructor
  · rintro (h | h)
    · simp [add_category, h]
    · exact add_category_of_exists st name h
  · intro h1 h2
    have hfind : st.categories.find? (fun c => c.name == pyStrip name) = none :=
      List.find?_eq_none.mpr (fun c hc hb => h2 c hc (beq_iff_eq.mp hb))
    have hcond : (pyStrip name != "") = true := bne_iff_ne.mpr h1
    have happ : add_category st name =
        ({ st with
            categories := st.categories ++ [⟨st.nextCategoryId, pyStrip name⟩],
            nextCategoryId := st.nextCategoryId + 1 },
         "Category added") := by
      simp [add_category, hfind, hcond]
    refine ⟨by rw [happ], by rw [happ], ?_, ?_⟩
    · rw [happ]
      have hnil : st.categories.filter (fun c => c.name == pyStrip name) = [] :=
        List.filter_eq_nil_iff.mpr (fun c hc hb => h2 c hc (beq_iff_eq.mp hb))
      simp [List.filter_append, hnil]
    · refine add_category_of_exists (add_category st name).1 name
        ⟨⟨st.nextCategoryId, pyStrip name⟩, ?_, rfl⟩
      rw [happ]
      exact List.mem_append_right _ (List.mem_singleton.mpr rfl)

/-- Witness for `add_category_spec`: adding "safety" (lower case) to a
state that already holds "Safety" succeeds — the duplicate check is
case-sensitive — and the second identical call is rejected. -/
theorem add_category_spec_witness :
    pyStrip " safety " ≠ "" ∧ (∀ c ∈ sampleState.categories, c.name ≠ pyStrip " safety ") ∧
    ((add_category sampleState " safety ").1.categories
        = sampleState.categories ++ [⟨sampleState.nextCategoryId, pyStrip " safety "⟩] ∧
      (add_category sampleState " safety ").2 = "Category added" ∧
      ((add_category sampleState " safety ").1.categories.filter
          (fun c => c.name == pyStrip " safety ")).length = 1 ∧
      add_category (add_category sampleState " safety ").1 " safety "
          = ((add_category sampleState " safety ").1, "Category exists or empty")) := by
  refine ⟨by decide, by decide, ?_⟩
  exact (add_category_spec sampleState " safety ").2 (by decide) (by decide)

/-!
C10 — update stores text verbatim, insertion rejects blank text.
-/

/-- C10: `update_checklist_item` stores the submitted text verbatim — no
trimming, no emptiness check, so it can set an item's text to `""` —
while `add_checklist_item` strips its text and silently inserts nothing
when the stripped text is empty (and otherwise inserts the stripped,
nonempty text): the non-empty-text property established at insertion is
not preserved by the update path. -/
theorem update_no_trim_add_trims (st : DBState) :
    (∀ item_id text ospec it,
      st.checklist_items.find? (fun i => i.id == item_id) = some it →
      ∃ st', update_checklist_item st item_id text ospec
          = Except.ok (st', "Checklist item updated") ∧
        ∀ j ∈ st'.checklist_items, j.id = item_id → j.text = text) ∧
    (∀ cid text ospec, pyStrip text = "" → add_checklist_item st cid text ospec = st) ∧
    (∀ cid text ospec, pyStrip text ≠ "" →
      (add_checklist_item st cid text ospec).checklist_items
        = st.checklist_items ++
            [⟨st.nextChecklistItemId, cid, pyStrip text, some (pyStrip ospec)⟩]) := by
  refine ⟨?_, ?_, ?_⟩
  · intro item_id text ospec it h
    obtain ⟨st', h1, h2, -⟩ := update_checklist_item_found st item_id text ospec it h
    exact ⟨st', h1, fun j hj hid => (h2 j hj hid).1⟩
  · intro cid text ospec h
    simp [add_checklist_item, h]
  · intro cid text ospec h
    simp [add_checklist_item, bne_iff_ne.mpr h]

/-- Witness for `update_no_trim_add_trims`: item 1's text is set to the
empty string by the update path, while inserting blank text is a no-op. -/
theorem update_no_trim_add_trims_witness :
    (∃ st', update_checklist_item sampleState 1 "" ""
        = Except.ok (st', "Checklist item updated") ∧
      ∀ j ∈ st'.checklist_items, j.id = 1 → j.text = "") ∧
    add_checklist_item sampleState 1 "   " "x" = sampleState := by
  refine ⟨?_, ?_⟩
  · exact (update_no_trim_add_trims sampleState).1 1 "" "" ⟨1, 1, "item one", none⟩ (by decide)
  · exact (update_no_trim_add_trims sampleState).2.1 1 "   " "x" (by decide)

/-!
C5 and C2 — audit creation: item completeness and the two commits.
-/

/-- The rows built by `mkAuditItems` reference the checklist items in
order: mapping out the checklist-item id recovers the checklist's ids. -/
theorem mkAuditItems_cid_map (aid : Nat) (score : Nat → Option Nat)
    (record : Nat → Option String) (photo : Nat → Option String) :
    ∀ (items : List ChecklistItemRow) (k : Nat),
      (mkAuditItems aid score record photo k items).map (fun ai => ai.checklist_item_id)
        = items.map (fun it => it.id) := by
  intro items
  induction items with
  | nil => intro k; rfl
  | cons it rest ih => intro k; simp [mkAuditItems, ih]

/-- Every row built by `mkAuditItems` belongs to audit `aid` and stores
the submitted score of its checklist item. -/
theorem mkAuditItems_mem (aid : Nat) (score : Nat → Option Nat)
    (record : Nat → Option String) (photo : Nat → Option String) :
    ∀ (items : List ChecklistItemRow) (k : Nat) (ai : AuditItemRow),
      ai ∈ mkAuditItems aid score record photo k items →
      ai.audit_id = aid ∧ ai.score = score ai.checklist_item_id := by
  intro items
  induction items with
  | nil => intro k ai h; cases h
  | cons it rest ih =>
    intro k ai h
    rcases List.mem_cons.mp h with rfl | h
    · exact ⟨rfl, rfl⟩
    · exact ih (k + 1) ai h

/-- Every checklist item is covered by a row of `mkAuditItems` carrying
its submitted score (a missing submission is stored as `none`). -/
theorem mkAuditItems_covers (aid : Nat) (score : Nat → Option Nat)
    (record : Nat → Option String) (photo : Nat → Option String) :
    ∀ (items : List ChecklistItemRow) (k : Nat) (it : ChecklistItemRow),
      it ∈ items →
      ∃ ai ∈ mkAuditItems aid score record photo k items,
        ai.checklist_item_id = it.id ∧ ai.score = score it.id := by
  intro items
  induction items with
  | nil => intro k it h; cases h
  | cons it0 rest ih =>
    intro k it h
    rcases List.mem_cons.mp h with rfl | h
    · exact ⟨_, List.mem_cons_self _ _, rfl, rfl⟩
    · obtain ⟨ai, hmem, hprop⟩ := ih (k + 1) it h
      exact ⟨ai, List.mem_cons_of_mem _ hmem, hprop⟩

/-- One row per checklist item. -/
theorem mkAuditItems_length (aid : Nat) (score : Nat → Option Nat)
    (record : Nat → Option String) (photo : Nat → Option String) :
    ∀ (items : List ChecklistItemRow) (k : Nat),
      (mkAuditItems aid score record photo k items).length = items.length := by
  intro items
  induction items with
  | nil => intro k; rfl
  | cons it rest ih => intro k; simp [mkAuditItems, ih]

/-- The item loop of `new_audit` appends exactly the `mkAuditItems` rows
to the audit-item table and leaves the other tables unchanged. -/
theorem new_audit_foldl_spec (aid : Nat) (score : Nat → Option Nat)
    (record : Nat → Option String) (photo : Nat → Option String) :
    ∀ (items : List ChecklistItemRow) (s : DBState),
      (items.foldl (new_audit_add_item aid score record photo) s).audit_items
          = s.audit_items ++ mkAuditItems aid score record photo s.nextAuditItemId items ∧
      (items.foldl (new_audit_add_item aid score record photo) s).audits = s.audits ∧
      (items.foldl (new_audit_add_item aid score record photo) s).checklist_items
          = s.checklist_items ∧
      (items.foldl (new_audit_add_item aid score record photo) s).categories
          = s.categories := by
  intro items
  induction items with
  | nil => intro s; simp [mkAuditItems]
  | cons it rest ih =>
    intro s
    obtain ⟨h1, h2, h3, h4⟩ := ih (new_audit_add_item aid score record photo s it)
    refine ⟨?_, by rw [List.foldl_cons, h2]; rfl, by rw [List.foldl_cons, h3]; rfl,
      by rw [List.foldl_cons, h4]; rfl⟩
    rw [List.foldl_cons, h1]
    simp [new_audit_add_item, mkAuditItems, List.append_assoc]

/-- The audit items `new_audit` attaches to the freshly assigned audit id
are exactly the `mkAuditItems` rows (provided that id was never used by
an existing audit item, which SQLite rowid assignment guarantees). -/
theorem new_audit_new_items (st : DBState) (vendor date area : String)
    (score : Nat → Option Nat) (record : Nat → Option String)
    (photo : Nat → Option String)
    (hfresh : ∀ ai ∈ st.audit_items, ai.audit_id ≠ st.nextAuditId) :
    (new_audit st vendor date area score record photo).audit_items.filter
        (fun ai => ai.audit_id == st.nextAuditId)
      = mkAuditItems st.nextAuditId score record photo st.nextAuditItemId
          st.checklist_items := by
  obtain ⟨h1, -, -, -⟩ := new_audit_foldl_spec st.nextAuditId score record photo
    st.checklist_items (new_audit_header st vendor date area)
  show (st.checklist_items.foldl
      (new_audit_add_item st.nextAuditId score record photo)
      (new_audit_header st vendor date area)).audit_items.filter
        (fun ai => ai.audit_id == st.nextAuditId) = _
  rw [h1]
  have hold : (new_audit_header st vendor date area).audit_items = st.audit_items := rfl
  have hnext : (new_audit_header st vendor date area).nextAuditItemId
      = st.nextAuditItemId := rfl
  rw [hold, hnext, List.filter_append]
  have hnil : st.audit_items.filter (fun ai => ai.audit_id == st.nextAuditId) = [] :=
    List.filter_eq_nil_iff.mpr (fun ai hai hb => hfresh ai hai (beq_iff_eq.mp hb))
  have hall : (mkAuditItems st.nextAuditId score record photo st.nextAuditItemId
      st.checklist_items).filter (fun ai => ai.audit_id == st.nextAuditId)
      = mkAuditItems st.nextAuditId score record photo st.nextAuditItemId
          st.checklist_items :=
    List.filter_eq_self.mpr (fun ai hai => beq_iff_eq.mpr
      (mkAuditItems_mem _ _ _ _ _ _ _ hai).1)
  rw [hnil, hall, List.nil_append]

/-- C5: a successful `new_audit` on a checklist of N items stores exactly
N `AuditItem` rows under the new audit id, referencing the checklist
items one-for-one (distinct when the checklist ids are distinct, and
covering every checklist item), and an item with no submitted score is
stored as a row with a NULL score rather than omitted. -/
theorem new_audit_creates_full_item_set (st : DBState) (vendor date area : String)
    (score : Nat → Option Nat) (record : Nat → Option String)
    (photo : Nat → Option String)
    (hfresh : ∀ ai ∈ st.audit_items, ai.audit_id ≠ st.nextAuditId) :
    ((new_audit st vendor date area score record photo).audit_items.filter
        (fun ai => ai.audit_id == st.nextAuditId)).length
      = st.checklist_items.length ∧
    ((new_audit st vendor date area score record photo).audit_items.filter
        (fun ai => ai.audit_id == st.nextAuditId)).map (fun ai => ai.checklist_item_id)
      = st.checklist_items.map (fun it => it.id) ∧
    ((st.checklist_items.map (fun it => it.id)).Nodup →
      (((new_audit st vendor date area score record photo).audit_items.filter
          (fun ai => ai.audit_id == st.nextAuditId)).map
            (fun ai => ai.checklist_item_id)).Nodup) ∧
    (∀ it ∈ st.checklist_items,
      ∃ ai ∈ (new_audit st vendor date area score record photo).audit_items.filter
          (fun ai => ai.audit_id == st.nextAuditId),
        ai.checklist_item_id = it.id ∧ ai.score = score it.id) := by
  rw [new_audit_new_items st vendor date area score record photo hfresh]
  refine ⟨mkAuditItems_length _ _ _ _ _ _, mkAuditItems_cid_map _ _ _ _ _ _, ?_, ?_⟩
  · intro hnodup
    rw [mkAuditItems_cid_map]
    exact hnodup
  · intro it hit
    exact mkAuditItems_covers _ _ _ _ _ _ it hit

/-- Witness for `new_audit_creates_full_item_set` at a concrete state:
three checklist items, one submitted score. -/
theorem new_audit_creates_full_item_set_witness :
    (∀ ai ∈ sampleState.audit_items, ai.audit_id ≠ sampleState.nextAuditId) ∧
    ((new_audit sampleState "W" "2024-02-02" "B"
        (fun i => if i = 1 then some 2 else none) (fun _ => none)
        (fun _ => none)).audit_items.filter
          (fun ai => ai.audit_id == sampleState.nextAuditId)).length
      = sampleState.checklist_items.length ∧
    (∀ it ∈ sampleState.checklist_items,
      ∃ ai ∈ (new_audit sampleState "W" "2024-02-02" "B"
          (fun i => if i = 1 then some 2 else none) (fun _ => none)
          (fun _ => none)).audit_items.filter
            (fun ai => ai.audit_id == sampleState.nextAuditId),
        ai.checklist_item_id = it.id ∧
        ai.score = (fun i => if i = 1 then some 2 else none) it.id) := by
  have h := new_audit_creates_full_item_set sampleState "W" "2024-02-02" "B"
    (fun i => if i = 1 then some 2 else none) (fun _ => none) (fun _ => none)
    (by decide)
  exact ⟨by decide, h.1, h.2.2.2⟩

/-- C2 counterexample: stopping after the first `db.session.commit()` of
`new_audit` (a real commit boundary in the code) leaves a persisted state
in which the new audit owns 0 of the 3 checklist items' rows. -/
theorem new_audit_partial_commit_cex :
    ∃ a ∈ (new_audit_header sampleState "W" "2024-02-02" "B").audits,
      ((new_audit_header sampleState "W" "2024-02-02" "B").audit_items.filter
          (fun ai => ai.audit_id == a.id)).length
        ≠ (new_audit_header sampleState "W" "2024-02-02" "B").checklist_items.length := by
  decide

/-- C2 amended: `new_audit` uses two transactions, not one. The first
commit persists the audit header with zero item rows (so a failure
between the commits leaves an Audit without its item set); only the
second commit adds the full set of item rows. -/
theorem new_audit_two_phase (st : DBState) (vendor date area : String)
    (score : Nat → Option Nat) (record : Nat → Option String)
    (photo : Nat → Option String)
    (hfresh : ∀ ai ∈ st.audit_items, ai.audit_id ≠ st.nextAuditId) :
    (∃ a ∈ (new_audit_header st vendor date area).audits,
      a.id = st.nextAuditId ∧
      (new_audit_header st vendor date area).audit_items.filter
          (fun ai => ai.audit_id == a.id) = []) ∧
    ((new_audit st vendor date area score record photo).audit_items.filter
        (fun ai => ai.audit_id == st.nextAuditId)).length
      = st.checklist_items.length := by
  constructor
  · refine ⟨⟨st.nextAuditId, vendor, date, area⟩,
      List.mem_append_right _ (List.mem_singleton.mpr rfl), rfl, ?_⟩
    exact List.filter_eq_nil_iff.mpr
      (fun ai hai hb => hfresh ai hai (beq_iff_eq.mp hb))
  · rw [new_audit_new_items st vendor date area score record photo hfresh]
    exact mkAuditItems_length _ _ _ _ _ _

/-- Witness for `new_audit_two_phase` at a concrete state. -/
theorem new_audit_two_phase_witness :
    (∀ ai ∈ sampleState.audit_items, ai.audit_id ≠ sampleState.nextAuditId) ∧
    (∃ a ∈ (new_audit_header sampleState "V2" "2024-03-03" "C").audits,
      a.id = sampleState.nextAuditId ∧
      (new_audit_header sampleState "V2" "2024-03-03" "C").audit_items.filter
          (fun ai => ai.audit_id == a.id) = []) := by
  have h := new_audit_two_phase sampleState "V2" "2024-03-03" "C"
    (fun _ => none) (fun _ => none) (fun _ => none) (by decide)
  exact ⟨by decide, h.1⟩

/-!
C6 — deleting an audit.
-/

/-- After `os.remove`, the removed name is not among the files. -/
theorem os_remove_not_mem (files : List String) (f : String) :
    f ∉ os_remove files f := by
  intro hmem
  have h := (List.mem_filter.mp hmem).2
  rw [bne_self_eq_false] at h
  cases h

/-- The photo-removal loop never adds a file. -/
theorem photo_fold_preserve_not_mem (f : String) :
    ∀ (l : List AuditItemRow) (fs : List String), f ∉ fs →
      f ∉ l.foldl
        (fun fs ai =>
          match ai.photo_filename with
          | some g => os_remove fs g
          | none => fs)
        fs := by
  intro l
  induction l with
  | nil => intro fs h; exact h
  | cons ai rest ih =>
    intro fs h
    rw [List.foldl_cons]
    apply ih
    rcases hp : ai.photo_filename with - | g
    · simpa [hp] using h
    · simp only [hp]
      intro hmem
      exact h (List.mem_filter.mp hmem).1

/-- A photo name owned by some row of the loop's list is gone afterwards. -/
theorem photo_fold_removes (f : String) :
    ∀ (l : List AuditItemRow) (fs : List String),
      (∃ ai ∈ l, ai.photo_filename = some f) →
      f ∉ l.foldl
        (fun fs ai =>
          match ai.photo_filename with
          | some g => os_remove fs g
          | none => fs)
        fs := by
  intro l
  induction l with
  | nil => rintro fs ⟨ai, h, -⟩; cases h
  | cons ai rest ih =>
    rintro fs ⟨b, hb, hphoto⟩
    rcases List.mem_cons.mp hb with rfl | hb
    · rw [List.foldl_cons]
      simp only [hphoto]
      exact photo_fold_preserve_not_mem f rest _ (os_remove_not_mem fs f)
    · rw [List.foldl_cons]
      exact ih _ ⟨b, hb, hphoto⟩

/-- C6: `delete_audit` 404s on an unknown audit id; on an existing one it
removes every owned `AuditItem` row and the `Audit` row (leaving all other
rows), best-effort deletes every owned photo file, and afterwards the
audit list no longer derives any entry from the audit and the single-audit
export of that id is not-found. -/
theorem delete_audit_spec (st : DBState) (aid : Nat) :
    (st.audits.find? (fun a => a.id == aid) = none →
      delete_audit st aid = Except.error AppError.notFound) ∧
    (∀ a, st.audits.find? (fun a => a.id == aid) = some a →
      ∃ st', delete_audit st aid = Except.ok st' ∧
        (∀ b ∈ st'.audits, b.id ≠ aid) ∧
        (∀ ai ∈ st'.audit_items, ai.audit_id ≠ aid) ∧
        (∀ b ∈ st.audits, b.id ≠ aid → b ∈ st'.audits) ∧
        (∀ ai ∈ st.audit_items, ai.audit_id ≠ aid → ai ∈ st'.audit_items) ∧
        (∀ ai ∈ st.audit_items, ai.audit_id = aid →
          ∀ f, ai.photo_filename = some f → f ∉ st'.files) ∧
        (audits_list st').length = st'.audits.length ∧
        (∀ s ∈ audits_list st', ∃ b ∈ st'.audits, s = summarize st' b) ∧
        export_audit st' aid = Except.error AppError.notFound) := by
  constructor
  · intro h
    simp only [delete_audit, h]
  · intro a h
    refine ⟨{ st with
        audits := st.audits.filter (fun b => b.id != aid),
        audit_items := st.audit_items.filter (fun ai => ai.audit_id != aid),
        files := (st.audit_items.filter (fun ai => ai.audit_id == aid)).foldl
          (fun fs ai =>
            match ai.photo_filename with
            | some f => os_remove fs f
            | none => fs)
          st.files },
      by simp only [delete_audit, h], ?_, ?_, ?_, ?_, ?_, ?_, ?_, ?_⟩
    · intro b hb
      exact bne_iff_ne.mp (List.mem_filter.mp hb).2
    · intro ai hai
      exact bne_iff_ne.mp (List.mem_filter.mp hai).2
    · intro b hb hne
      exact List.mem_filter.mpr ⟨hb, bne_iff_ne.mpr hne⟩
    · intro ai hai hne
      exact List.mem_filter.mpr ⟨hai, bne_iff_ne.mpr hne⟩
    · intro ai hai hown f hf
      exact photo_fold_removes f _ st.files
        ⟨ai, List.mem_filter.mpr ⟨hai, beq_iff_eq.mpr hown⟩, hf⟩
    · show ((List.insertionSort _ _).map _).length = _
      rw [List.length_map, List.length_insertionSort]
    · intro s hs
      obtain ⟨b, hb, rfl⟩ := List.mem_map.mp hs
      exact ⟨b, (List.perm_insertionSort _ _).mem_iff.mp hb, rfl⟩
    · have hfind : (st.audits.filter (fun b => b.id != aid)).find?
          (fun b => b.id == aid) = none :=
        List.find?_eq_none.mpr (fun b hb hbeq =>
          bne_iff_ne.mp (List.mem_filter.mp hb).2 (beq_iff_eq.mp hbeq))
      simp only [export_audit]
      rw [hfind]

/-- Witness for `delete_audit_spec`: deleting audit 1 of `sampleState2`
removes its row, its item and its photo file, and the export then 404s. -/
theorem delete_audit_spec_witness :
    sampleState2.audits.find? (fun a => a.id == 1) = some ⟨1, "V", "2024-01-01", "A"⟩ ∧
    ∃ st', delete_audit sampleState2 1 = Except.ok st' ∧
      (∀ b ∈ st'.audits, b.id ≠ 1) ∧
      (∀ ai ∈ sampleState2.audit_items, ai.audit_id = 1 →
        ∀ f, ai.photo_filename = some f → f ∉ st'.files) ∧
      export_audit st' 1 = Except.error AppError.notFound := by
  refine ⟨by decide, ?_⟩
  obtain ⟨st', h1, h2, -, -, -, h6, -, -, h9⟩ :=
    (delete_audit_spec sampleState2 1).2 ⟨1, "V", "2024-01-01", "A"⟩ (by decide)
  exact ⟨st', h1, h2, h6, h9⟩

/-!
C9 — the MIL status column.
-/

/-- Enumeration only pairs an index with an element of the list. -/
theorem snd_mem_of_mem_enumFrom {α : Type} :
    ∀ (l : List α) (n : Nat) (p : Nat × α), p ∈ List.enumFrom n l → p.2 ∈ l := by
  intro l
  induction l with
  | nil => intro n p h; cases h
  | cons a t ih =>
    intro n p h
    rcases List.mem_cons.mp h with rfl | h
    · exact List.mem_cons_self _ _
    · exact List.mem_cons_of_mem _ (ih (n + 1) p h)

/-- C9: every MIL row's status is computed by `milStatus` ("Open" for a
NULL or sub-3 score, "Closed" otherwise), and when every stored score is
at most 3, no row that passes the `score != 3` filter can be "Closed":
every exported row's status is "Open". -/
theorem export_mil_rows_all_open (st : DBState)
    (hscores : ∀ ai ∈ st.audit_items, ai.score.getD 0 ≤ 3) :
    ∀ rows, export_mil st = some rows →
      ∀ r ∈ rows, ∃ ai ∈ st.audit_items,
        milFilter ai = true ∧ r.status = milStatus ai.score ∧ r.status = "Open" := by
  intro rows hrows r hr
  simp only [export_mil] at hrows
  split at hrows
  · cases hrows
  · rename_i hne
    obtain rfl := Option.some.inj hrows
    obtain ⟨p, hp, rfl⟩ := List.mem_map.mp hr
    have hq : p.2 ∈ (st.audit_items.filter milFilter).insertionSort
        (fun a b => a.id ≤ b.id) := snd_mem_of_mem_enumFrom _ 1 p hp
    have hmem : p.2 ∈ st.audit_items.filter milFilter :=
      (List.perm_insertionSort _ _).mem_iff.mp hq
    obtain ⟨hin, hfilter⟩ := List.mem_filter.mp hmem
    refine ⟨p.2, hin, hfilter, rfl, ?_⟩
    show milStatus p.2.score = "Open"
    rcases hsc : p.2.score with - | s
    · rfl
    · have hs3 : s ≤ 3 := by
        have := hscores p.2 hin
        rw [hsc] at this
        exact this
      have hne3 : s ≠ 3 := by
        have hb : milFilter p.2 = true := hfilter
        rw [milFilter, hsc] at hb
        exact bne_iff_ne.mp hb
      have hlt : s < 3 := lt_of_le_of_ne hs3 hne3
      simp [milStatus, hlt]

/-- Witness for `export_mil_rows_all_open` at `sampleState`. -/
theorem export_mil_rows_all_open_witness :
    (∀ ai ∈ sampleState.audit_items, ai.score.getD 0 ≤ 3) ∧
    (∀ rows, export_mil sampleState = some rows →
      ∀ r ∈ rows, ∃ ai ∈ sampleState.audit_items,
        milFilter ai = true ∧ r.status = milStatus ai.score ∧ r.status = "Open") :=
  ⟨by decide, export_mil_rows_all_open sampleState (by decide)⟩

/-!
C4 — percentage aggregation: lemmas about the `category_scores` fold.
-/

/-- `catSum` over a cons. -/
theorem catSum_cons (c c1 : String) (sc : Option Nat) (L : List (String × Option Nat)) :
    catSum c ((c1, sc) :: L) = if c1 = c then sc.getD 0 + catSum c L else catSum c L := by
  by_cases h : c1 = c
  · simp [catSum, List.filter_cons, h]
  · simp [catSum, List.filter_cons, h]

/-- `catCount` over a cons. -/
theorem catCount_cons (c c1 : String) (sc : Option Nat) (L : List (String × Option Nat)) :
    catCount c ((c1, sc) :: L) = if c1 = c then catCount c L + 1 else catCount c L := by
  by_cases h : c1 = c
  · simp [catCount, List.filter_cons, h]
  · simp [catCount, List.filter_cons, h]

/-- Unfolding equation: updating an empty accumulator. -/
theorem addToCats_nil (c : String) (s : Option Nat) :
    addToCats [] c s = [(c, s.getD 0, 1)] := rfl

/-- Unfolding equation: the head entry matches the category. -/
theorem addToCats_cons_pos (c : String) (s : Option Nat) (c0 : String)
    (s0 k0 : Nat) (rest : List (String × Nat × Nat)) (h : c0 = c) :
    addToCats ((c0, s0, k0) :: rest) c s = (c0, s0 + s.getD 0, k0 + 1) :: rest := by
  simp [addToCats, h]

/-- Unfolding equation: the head entry does not match the category. -/
theorem addToCats_cons_neg (c : String) (s : Option Nat) (c0 : String)
    (s0 k0 : Nat) (rest : List (String × Nat × Nat)) (h : ¬ c0 = c) :
    addToCats ((c0, s0, k0) :: rest) c s = (c0, s0, k0) :: addToCats rest c s := by
  simp [addToCats, h]

/-- A key of the updated accumulator is an old key or the new category. -/
theorem addToCats_keys_subset (c : String) (s : Option Nat) :
    ∀ (acc : List (String × Nat × Nat)) (x : String),
      x ∈ (addToCats acc c s).map (fun p => p.1) →
      x ∈ acc.map (fun p => p.1) ∨ x = c := by
  intro acc
  induction acc with
  | nil =>
    intro x hx
    rw [addToCats_nil, List.map_cons, List.map_nil] at hx
    rcases List.mem_cons.mp hx with h | h
    · exact Or.inr h
    · cases h
  | cons q rest ih =>
    obtain ⟨c0, s0, k0⟩ := q
    intro x hx
    by_cases hc : c0 = c
    · rw [addToCats_cons_pos c s c0 s0 k0 rest hc, List.map_cons] at hx
      rw [List.map_cons]
      exact Or.inl hx
    · rw [addToCats_cons_neg c s c0 s0 k0 rest hc, List.map_cons] at hx
      rw [List.map_cons]
      rcases List.mem_cons.mp hx with h | h
      · exact Or.inl (h ▸ List.mem_cons_self _ _)
      · rcases ih x h with h' | h'
        · exact Or.inl (List.mem_cons_of_mem _ h')
        · exact Or.inr h'

/-- The update keeps the accumulator's keys distinct. -/
theorem addToCats_nodupKeys (c : String) (s : Option Nat) :
    ∀ (acc : List (String × Nat × Nat)),
      (acc.map (fun p => p.1)).Nodup →
      ((addToCats acc c s).map (fun p => p.1)).Nodup := by
  intro acc
  induction acc with
  | nil =>
    intro _
    rw [addToCats_nil]
    simp
  | cons q rest ih =>
    obtain ⟨c0, s0, k0⟩ := q
    intro hnd
    rw [List.map_cons, List.nodup_cons] at hnd
    obtain ⟨hc0, hrest⟩ := hnd
    by_cases hc : c0 = c
    · rw [addToCats_cons_pos c s c0 s0 k0 rest hc, List.map_cons]
      exact List.nodup_cons.mpr ⟨hc0, hrest⟩
    · rw [addToCats_cons_neg c s c0 s0 k0 rest hc, List.map_cons]
      refine List.nodup_cons.mpr ⟨?_, ih hrest⟩
      intro hmem
      rcases addToCats_keys_subset c s rest c0 hmem with h | h
      · exact hc0 h
      · exact hc h

/-- Lookup at a cons whose head key matches. -/
theorem lookupCat_cons_pos (c0 : String) (v : Nat × Nat)
    (rest : List (String × Nat × Nat)) (x : String) (h : (c0 == x) = true) :
    lookupCat ((c0, v) :: rest) x = some (c0, v) := by
  rw [lookupCat]
  exact @List.find?_cons_of_pos _ (fun p => p.1 == x) (c0, v) rest h

/-- Lookup at a cons whose head key does not match. -/
theorem lookupCat_cons_neg (c0 : String) (v : Nat × Nat)
    (rest : List (String × Nat × Nat)) (x : String) (h : (c0 == x) = false) :
    lookupCat ((c0, v) :: rest) x = lookupCat rest x := by
  rw [lookupCat, lookupCat]
  exact @List.find?_cons_of_neg _ (fun p => p.1 == x) (c0, v) rest (by simp [h])

/-- Updating category `c` does not change the lookup of any other key. -/
theorem addToCats_lookup_other (c : String) (s : Option Nat) :
    ∀ (acc : List (String × Nat × Nat)) (x : String), x ≠ c →
      lookupCat (addToCats acc c s) x = lookupCat acc x := by
  intro acc
  induction acc with
  | nil =>
    intro x hx
    rw [addToCats_nil,
      lookupCat_cons_neg c (s.getD 0, 1) [] x
        (beq_eq_false_iff_ne.mpr (fun h => hx h.symm))]
  | cons q rest ih =>
    obtain ⟨c0, s0, k0⟩ := q
    intro x hx
    by_cases hc : c0 = c
    · rw [addToCats_cons_pos c s c0 s0 k0 rest hc]
      have hb : (c0 == x) = false :=
        beq_eq_false_iff_ne.mpr (fun h => hx (h.symm.trans hc))
      rw [lookupCat_cons_neg c0 (s0 + s.getD 0, k0 + 1) rest x hb,
        lookupCat_cons_neg c0 (s0, k0) rest x hb]
    · rw [addToCats_cons_neg c s c0 s0 k0 rest hc]
      cases hb : (c0 == x) with
      | true =>
        rw [lookupCat_cons_pos c0 (s0, k0) (addToCats rest c s) x hb,
          lookupCat_cons_pos c0 (s0, k0) rest x hb]
      | false =>
        rw [lookupCat_cons_neg c0 (s0, k0) (addToCats rest c s) x hb,
          lookupCat_cons_neg c0 (s0, k0) rest x hb]
        exact ih x hx

/-- Updating a key absent from the accumulator creates its entry with the
submitted score (0 when unscored) and count 1. -/
theorem addToCats_lookup_none (c : String) (s : Option Nat) :
    ∀ (acc : List (String × Nat × Nat)), lookupCat acc c = none →
      lookupCat (addToCats acc c s) c = some (c, s.getD 0, 1) := by
  intro acc
  induction acc with
  | nil =>
    intro _
    rw [addToCats_nil, lookupCat_cons_pos c (s.getD 0, 1) [] c (beq_self_eq_true c)]
  | cons q rest ih =>
    obtain ⟨c0, s0, k0⟩ := q
    intro hnone
    cases hb : (c0 == c) with
    | true =>
      rw [lookupCat_cons_pos c0 (s0, k0) rest c hb] at hnone
      cases hnone
    | false =>
      rw [lookupCat_cons_neg c0 (s0, k0) rest c hb] at hnone
      have hc : ¬ c0 = c := fun h => by rw [beq_iff_eq.mpr h] at hb; cases hb
      rw [addToCats_cons_neg c s c0 s0 k0 rest hc,
        lookupCat_cons_neg c0 (s0, k0) (addToCats rest c s) c hb]
      exact ih hnone

/-- Updating a key present in the accumulator adds the score (0 when
unscored) to its sum and 1 to its count. -/
theorem addToCats_lookup_some (c : String) (s : Option Nat) :
    ∀ (acc : List (String × Nat × Nat)) (s0 k0 : Nat),
      lookupCat acc c = some (c, s0, k0) →
      lookupCat (addToCats acc c s) c = some (c, s0 + s.getD 0, k0 + 1) := by
  intro acc
  induction acc with
  | nil =>
    intro s0 k0 h
    rw [lookupCat, List.find?_nil] at h
    cases h
  | cons q rest ih =>
    obtain ⟨c0, sA, kA⟩ := q
    intro s0 k0 h
    cases hb : (c0 == c) with
    | true =>
      rw [lookupCat_cons_pos c0 (sA, kA) rest c hb] at h
      simp only [Option.some.injEq, Prod.mk.injEq] at h
      obtain ⟨hceq, rfl, rfl⟩ := h
      rw [addToCats_cons_pos c s c0 sA kA rest (beq_iff_eq.mp hb),
        lookupCat_cons_pos c0 (sA + s.getD 0, kA + 1) rest c hb, hceq]
    | false =>
      rw [lookupCat_cons_neg c0 (sA, kA) rest c hb] at h
      have hc : ¬ c0 = c := fun h' => by rw [beq_iff_eq.mpr h'] at hb; cases hb
      rw [addToCats_cons_neg c s c0 sA kA rest hc,
        lookupCat_cons_neg c0 (sA, kA) (addToCats rest c s) c hb]
      exact ih s0 k0 h

/-- The `category_scores` fold keeps keys distinct. -/
theorem catFold_nodupKeys :
    ∀ (L : List (String × Option Nat)) (acc : List (String × Nat × Nat)),
      (acc.map (fun p => p.1)).Nodup →
      ((L.foldl (fun a p => addToCats a p.1 p.2) acc).map (fun p => p.1)).Nodup := by
  intro L
  induction L with
  | nil => intro acc h; exact h
  | cons q L ih =>
    intro acc h
    rw [List.foldl_cons]
    exact ih _ (addToCats_nodupKeys q.1 q.2 acc h)

/-- With distinct keys, a member of the accumulator is what its key looks
up to. -/
theorem lookup_of_mem_nodup :
    ∀ (acc : List (String × Nat × Nat)),
      (acc.map (fun p => p.1)).Nodup →
      ∀ p ∈ acc, lookupCat acc p.1 = some p := by
  intro acc
  induction acc with
  | nil => intro _ p hp; cases hp
  | cons q rest ih =>
    obtain ⟨c0, v⟩ := q
    intro hnd p hp
    rw [List.map_cons, List.nodup_cons] at hnd
    obtain ⟨hc0, hrest⟩ := hnd
    rcases List.mem_cons.mp hp with rfl | hp
    · exact lookupCat_cons_pos c0 v rest _ (beq_self_eq_true c0)
    · have hne : (c0 == p.1) = false := by
        refine beq_eq_false_iff_ne.mpr (fun h => hc0 ?_)
        rw [h]
        exact List.mem_map_of_mem (fun p => p.1) hp
      rw [lookupCat_cons_neg c0 v rest p.1 hne]
      exact ih hrest p hp

/-- Running the `category_scores` fold over a list of (category, score)
pairs: looking up `c` afterwards yields the sum (unscored as 0) and count
of the pairs of category `c`, added onto whatever the accumulator already
recorded for `c`. -/
theorem catFold_lookup :
    ∀ (L : List (String × Option Nat)) (acc : List (String × Nat × Nat)) (c : String),
      (lookupCat acc c = none →
        lookupCat (L.foldl (fun a p => addToCats a p.1 p.2) acc) c
          = if catCount c L = 0 then none
            else some (c, catSum c L, catCount c L)) ∧
      (∀ s0 k0, lookupCat acc c = some (c, s0, k0) →
        lookupCat (L.foldl (fun a p => addToCats a p.1 p.2) acc) c
          = some (c, s0 + catSum c L, k0 + catCount c L)) := by
  intro L
  induction L with
  | nil =>
    intro acc c
    constructor
    · intro h
      simp only [List.foldl_nil, catSum, catCount, List.filter_nil,
        List.length_nil, List.map_nil, List.sum_nil, if_pos rfl]
      exact h
    · intro s0 k0 h
      simp only [List.foldl_nil, catSum, catCount, List.filter_nil,
        List.length_nil, List.map_nil, List.sum_nil, Nat.add_zero]
      exact h
  | cons q L ih =>
    obtain ⟨c1, sc⟩ := q
    intro acc c
    rw [List.foldl_cons]
    by_cases hc : c1 = c
    · subst hc
      constructor
      · intro h
        have h2 := (ih (addToCats acc c1 sc) c1).2 (sc.getD 0) 1
          (addToCats_lookup_none c1 sc acc h)
        rw [h2, catSum_cons, catCount_cons, if_pos rfl, if_pos rfl,
          if_neg (Nat.succ_ne_zero _)]
        rw [Nat.add_comm 1 (catCount c1 L)]
      · intro s0 k0 h
        have h2 := (ih (addToCats acc c1 sc) c1).2 (s0 + sc.getD 0) (k0 + 1)
          (addToCats_lookup_some c1 sc acc s0 k0 h)
        rw [h2, catSum_cons, catCount_cons, if_pos rfl, if_pos rfl]
        have e1 : s0 + sc.getD 0 + catSum c1 L = s0 + (sc.getD 0 + catSum c1 L) := by
          omega
        have e2 : k0 + 1 + catCount c1 L = k0 + (catCount c1 L + 1) := by
          omega
        rw [e1, e2]
    · have hother := addToCats_lookup_other c1 sc acc c (fun h => hc h.symm)
      constructor
      · intro h
        have h2 := (ih (addToCats acc c1 sc) c).1 (by rw [hother]; exact h)
        rw [h2, catSum_cons, catCount_cons, if_neg hc, if_neg hc]
      · intro s0 k0 h
        have h2 := (ih (addToCats acc c1 sc) c).2 s0 k0 (by rw [hother]; exact h)
        rw [h2, catSum_cons, catCount_cons, if_neg hc, if_neg hc]

/-- Every entry of the finished `category_scores` accumulator records the
sum (unscored as 0) and the nonzero count of its category's pairs. -/
theorem catFold_mem_spec (L : List (String × Option Nat)) :
    ∀ p ∈ L.foldl (fun a q => addToCats a q.1 q.2) ([] : List (String × Nat × Nat)),
      p.2.1 = catSum p.1 L ∧ p.2.2 = catCount p.1 L ∧ catCount p.1 L ≠ 0 := by
  intro p hp
  have hnd := catFold_nodupKeys L [] (by simp)
  have hlk := lookup_of_mem_nodup _ hnd p hp
  have h1 := (catFold_lookup L [] p.1).1 rfl
  by_cases hz : catCount p.1 L = 0
  · rw [if_pos hz, hlk] at h1
    cases h1
  · rw [if_neg hz, hlk] at h1
    have heq := Option.some.inj h1
    exact ⟨congrArg (fun q => q.2.1) heq, congrArg (fun q => q.2.2) heq, hz⟩

/-- The running total of `audits_list` is the sum of the scores with
unscored items counted as 0. -/
theorem foldl_add_score :
    ∀ (l : List AuditItemRow) (t : Nat),
      l.foldl (fun t ai => t + ai.score.getD 0) t
        = t + (l.map (fun ai => ai.score.getD 0)).sum := by
  intro l
  induction l with
  | nil => intro t; simp
  | cons ai rest ih =>
    intro t
    rw [List.foldl_cons, ih]
    simp [Nat.add_assoc]

/-- C4: every audit appears (summarized) in `audits_list`; each listed
per-category percentage is sum/(count×3)×100 over that category's items
of the audit, with unscored items counting 0 and the count never zero; the
total percentage follows the same formula over all items, an audit with no
items reporting 0 (as does the `pct` guard for a zero count); and the
spec's `[3,0,null]` example evaluates to (3+0+0)/(3×3)×100. -/
theorem audits_list_percentages (st : DBState) (a : AuditRow) (ha : a ∈ st.audits) :
    summarize st a ∈ audits_list st ∧
    (∀ cp ∈ (summarize st a).category_pcts,
      catCount cp.1 (catScorePairs st a.id) ≠ 0 ∧
      cp.2 = (catSum cp.1 (catScorePairs st a.id) : ℚ)
        / ((catCount cp.1 (catScorePairs st a.id) : ℚ) * 3) * 100) ∧
    ((st.audit_items.filter (fun ai => ai.audit_id == a.id)) = [] →
      (summarize st a).total_pct = 0) ∧
    ((st.audit_items.filter (fun ai => ai.audit_id == a.id)) ≠ [] →
      (summarize st a).total_pct
        = (((st.audit_items.filter (fun ai => ai.audit_id == a.id)).map
              (fun ai => ai.score.getD 0)).sum : ℚ)
          / (((st.audit_items.filter (fun ai => ai.audit_id == a.id)).length : ℚ) * 3)
          * 100) ∧
    (∀ s : Nat, pct s 0 = 0) ∧
    (summarize sampleState ⟨1, "V", "2024-01-01", "A"⟩).category_pcts
      = [("Safety", (3 + 0 + 0) / (3 * 3) * 100)] ∧
    (summarize sampleState ⟨1, "V", "2024-01-01", "A"⟩).total_pct
      = (3 + 0 + 0) / (3 * 3) * 100 := by
  refine ⟨?_, ?_, ?_, ?_, fun s => rfl, ?_, ?_⟩
  · show summarize st a ∈ (st.audits.insertionSort
      (fun a b => b.audit_date ≤ a.audit_date)).map (summarize st)
    exact List.mem_map_of_mem _ ((List.perm_insertionSort _ _).mem_iff.mpr ha)
  · intro cp hcp
    simp only [summarize] at hcp
    obtain ⟨p, hp, rfl⟩ := List.mem_map.mp hcp
    have hp' : p ∈ (catScorePairs st a.id).foldl
        (fun a q => addToCats a q.1 q.2) [] := by
      simp only [catScorePairs, List.foldl_map]
      exact hp
    obtain ⟨h1, h2, h3⟩ := catFold_mem_spec (catScorePairs st a.id) p hp'
    refine ⟨h3, ?_⟩
    show pct p.2.1 p.2.2 = _
    rw [h1, h2, pct, if_neg h3]
  · intro h0
    show pct ((st.audit_items.filter (fun ai => ai.audit_id == a.id)).foldl
        (fun t ai => t + ai.score.getD 0) 0)
      (st.audit_items.filter (fun ai => ai.audit_id == a.id)).length = 0
    rw [h0]
    rfl
  · intro hne
    show pct ((st.audit_items.filter (fun ai => ai.audit_id == a.id)).foldl
        (fun t ai => t + ai.score.getD 0) 0)
      (st.audit_items.filter (fun ai => ai.audit_id == a.id)).length = _
    rw [foldl_add_score, Nat.zero_add, pct,
      if_neg (fun h => hne (List.length_eq_zero.mp h)), Nat.cast_list_sum,
      List.map_map]
    rfl
  · show [("Safety", pct 3 3)] = _
    have : pct 3 3 = ((3 : ℚ) + 0 + 0) / (3 * 3) * 100 := by
      rw [pct, if_neg (by omega)]
      norm_num
    rw [this]
  · show pct 3 3 = _
    rw [pct, if_neg (by omega)]
    norm_num

/-- Witness for `audits_list_percentages`: `sampleState`'s audit, whose
"Safety" category is scored `[3, 0, null]`. -/
theorem audits_list_percentages_witness :
    (⟨1, "V", "2024-01-01", "A"⟩ : AuditRow) ∈ sampleState.audits ∧
    summarize sampleState ⟨1, "V", "2024-01-01", "A"⟩ ∈ audits_list sampleState ∧
    (summarize sampleState ⟨1, "V", "2024-01-01", "A"⟩).category_pcts
      = [("Safety", (3 + 0 + 0) / (3 * 3) * 100)] := by
  have h := audits_list_percentages sampleState ⟨1, "V", "2024-01-01", "A"⟩ (by decide)
  exact ⟨by decide, h.1, h.2.2.2.2.2.1⟩

/-!
C8 — collision-freedom of derived photo filenames.
-/

/-- A decimal digit character survives every step of the `secure_filename`
pipeline: it is ASCII, not whitespace, not the path separator, kept by the
regex and not stripped by `.strip("._")`. -/
theorem digit_char_facts (d : Nat) (hd : d < 10) :
    (Char.ofNat (48 + d)).toNat = 48 + d ∧
    Char.isDigit (Char.ofNat (48 + d)) = true ∧
    pySpaceChar (Char.ofNat (48 + d)) = false ∧
    keepChar (Char.ofNat (48 + d)) = true ∧
    stripEdgeChar (Char.ofNat (48 + d)) = false ∧
    (Char.ofNat (48 + d) == '/') = false ∧
    (Char.ofNat (48 + d)).toNat < 128 := by
  interval_cases d <;> exact ⟨by decide, by decide, by decide, by decide,
    by decide, by decide, by decide⟩

/-- `charsToNat` recovers the number from its little-endian digits. -/
theorem natCharsAux_parse :
    ∀ (fuel n : Nat), n ≤ fuel → charsToNat (natCharsAux fuel n) = n := by
  intro fuel
  induction fuel with
  | zero =>
    intro n hn
    interval_cases n
    rfl
  | succ f ih =>
    intro n hn
    cases n with
    | zero => rfl
    | succ m =>
      show charsToNat (Char.ofNat (48 + (m + 1) % 10) :: natCharsAux f ((m + 1) / 10))
        = m + 1
      show digitVal (Char.ofNat (48 + (m + 1) % 10))
          + 10 * charsToNat (natCharsAux f ((m + 1) / 10)) = m + 1
      have hd : (m + 1) % 10 < 10 := Nat.mod_lt _ (by omega)
      have hdv : digitVal (Char.ofNat (48 + (m + 1) % 10)) = (m + 1) % 10 := by
        rw [digitVal, (digit_char_facts _ hd).1]
        omega
      have hdiv : (m + 1) / 10 ≤ f := by
        have := Nat.div_lt_self (Nat.succ_pos m) (by omega : 1 < 10)
        omega
      rw [hdv, ih ((m + 1) / 10) hdiv]
      exact Nat.mod_add_div (m + 1) 10

/-- Distinct numbers have distinct decimal digit strings. -/
theorem natChars_inj (m n : Nat) (h : natChars m = natChars n) : m = n := by
  have hz : charsToNat ['0'] = 0 := by decide
  rcases Nat.eq_zero_or_pos m with hm | hm <;> rcases Nat.eq_zero_or_pos n with hn | hn
  · omega
  · subst hm
    rw [natChars, if_pos rfl, natChars, if_neg (by omega)] at h
    have haux : natCharsAux n n = ['0'] := by
      have h2 := congrArg List.reverse h
      simpa using h2.symm
    have h3 := natCharsAux_parse n n (le_refl n)
    rw [haux, hz] at h3
    omega
  · subst hn
    rw [natChars, if_neg (by omega), natChars, if_pos rfl] at h
    have haux : natCharsAux m m = ['0'] := by
      have h2 := congrArg List.reverse h
      simpa using h2
    have h3 := natCharsAux_parse m m (le_refl m)
    rw [haux, hz] at h3
    omega
  · rw [natChars, if_neg (by omega), natChars, if_neg (by omega)] at h
    have haux := List.reverse_injective h
    have h1 := natCharsAux_parse m m (le_refl m)
    have h2 := natCharsAux_parse n n (le_refl n)
    rw [haux, h2] at h1
    exact h1.symm

/-- Every character produced by `natCharsAux` is a decimal digit. -/
theorem natCharsAux_mem :
    ∀ (fuel n : Nat) (c : Char), c ∈ natCharsAux fuel n →
      ∃ d, d < 10 ∧ c = Char.ofNat (48 + d) := by
  intro fuel
  induction fuel with
  | zero => intro n c h; cases h
  | succ f ih =>
    intro n c h
    cases n with
    | zero => cases h
    | succ m =>
      have h' : c ∈ Char.ofNat (48 + (m + 1) % 10) :: natCharsAux f ((m + 1) / 10) := h
      rcases List.mem_cons.mp h' with rfl | h''
      · exact ⟨(m + 1) % 10, Nat.mod_lt _ (by omega), rfl⟩
      · exact ih _ c h''

/-- Every character of `natChars n` is a decimal digit. -/
theorem natChars_mem_digit (n : Nat) (c : Char) (h : c ∈ natChars n) :
    ∃ d, d < 10 ∧ c = Char.ofNat (48 + d) := by
  rw [natChars] at h
  by_cases hn : n = 0
  · rw [if_pos hn] at h
    have hc : c = '0' := by simpa using h
    exact ⟨0, by omega, by rw [hc]⟩
  · rw [if_neg hn] at h
    exact natCharsAux_mem n n c (List.mem_reverse.mp h)

/-- The pipeline-survival facts for every character of `natChars n`. -/
theorem natChars_good (n : Nat) (c : Char) (h : c ∈ natChars n) :
    pySpaceChar c = false ∧ keepChar c = true ∧ stripEdgeChar c = false ∧
    (c == '/') = false ∧ c.toNat < 128 ∧ Char.isDigit c = true := by
  obtain ⟨d, hd, rfl⟩ := natChars_mem_digit n c h
  obtain ⟨-, h2, h3, h4, h5, h6, h7⟩ := digit_char_facts d hd
  exact ⟨h3, h4, h5, h6, h7, h2⟩

/-- A decimal digit string is never empty. -/
theorem natChars_ne_nil (n : Nat) : natChars n ≠ [] := by
  rw [natChars]
  by_cases hn : n = 0
  · rw [if_pos hn]
    simp
  · rw [if_neg hn]
    intro h
    have haux : natCharsAux n n = [] := List.reverse_eq_nil_iff.mp h
    have h3 := natCharsAux_parse n n (le_refl n)
    rw [haux] at h3
    exact hn h3.symm

/-- Intercalation over a singleton. -/
theorem intercalate_single (sep x : List Char) :
    List.intercalate sep [x] = x := by
  simp [List.intercalate]

/-- Intercalation over at least two chunks. -/
theorem intercalate_cons_cons (sep x y : List Char) (ys : List (List Char)) :
    List.intercalate sep (x :: y :: ys) = x ++ sep ++ List.intercalate sep (y :: ys) := by
  simp [List.intercalate, List.intersperse_cons_cons]

/-- Every character of the `"{audit.id}_{item.id}_"` prefix is ASCII, not
whitespace, not the path separator, and kept by the regex. -/
theorem prefix_good (A I : Nat) :
    ∀ c ∈ natChars A ++ '_' :: (natChars I ++ ['_']),
      pySpaceChar c = false ∧ keepChar c = true ∧ (c == '/') = false ∧
      c.toNat < 128 := by
  intro c hc
  rcases List.mem_append.mp hc with h | h
  · obtain ⟨h1, h2, -, h4, h5, -⟩ := natChars_good A c h
    exact ⟨h1, h2, h4, h5⟩
  · rcases List.mem_cons.mp h with rfl | h
    · exact ⟨by decide, by decide, by decide, by decide⟩
    · rcases List.mem_append.mp h with h | h
      · obtain ⟨h1, h2, -, h4, h5, -⟩ := natChars_good I c h
        exact ⟨h1, h2, h4, h5⟩
      · rw [List.mem_singleton.mp h]
        exact ⟨by decide, by decide, by decide, by decide⟩

/-- The ASCII filter keeps an all-ASCII prefix intact. -/
theorem asciiOnly_append_good (P o : List Char) (hP : ∀ c ∈ P, c.toNat < 128) :
    asciiOnly (P ++ o) = P ++ asciiOnly o := by
  rw [asciiOnly, asciiOnly, List.filter_append]
  congr 1
  refine List.filter_eq_self.mpr (fun c hc => ?_)
  simp only [decide_eq_true_eq]
  exact hP c hc

/-- The separator replacement leaves a separator-free prefix intact. -/
theorem sepToSpace_append_good (P o : List Char) (hP : ∀ c ∈ P, (c == '/') = false) :
    sepToSpace (P ++ o) = P ++ sepToSpace o := by
  rw [sepToSpace, sepToSpace, List.map_append]
  congr 1
  exact map_id_of_mem (fun c hc => by rw [if_neg (by simp [hP c hc])])

/-- Splitting on a predicate no character of the prefix satisfies: the
prefix lands at the front of the first chunk. -/
theorem splitOnP_append_not (p : Char → Bool) :
    ∀ (P o : List Char), (∀ c ∈ P, p c = false) →
      (P ++ o).splitOnP p = List.modifyHead (fun t => P ++ t) (o.splitOnP p) := by
  intro P
  induction P with
  | nil =>
    intro o h
    rcases hsplit : o.splitOnP p with - | ⟨t, ts⟩
    · exact absurd hsplit (List.splitOnP_ne_nil p o)
    · rw [List.nil_append, hsplit, List.modifyHead_cons, List.nil_append]
  | cons c P ih =>
    intro o h
    rw [List.cons_append, List.splitOnP_cons,
      if_neg (by simp [h c (List.mem_cons_self c P)]),
      ih o (fun x hx => h x (List.mem_cons_of_mem c hx))]
    rcases hsplit : o.splitOnP p with - | ⟨t, ts⟩
    · exact absurd hsplit (List.splitOnP_ne_nil p o)
    · rw [List.modifyHead_cons, List.modifyHead_cons, List.modifyHead_cons,
        List.cons_append]

/-- After tokenizing and underscore-joining, a nonempty whitespace-free
prefix is still the front of the result. -/
theorem join_tokens_append (P o : List Char) (hP : ∀ c ∈ P, pySpaceChar c = false)
    (hne : P ≠ []) :
    ∃ r, underscoreJoin (wsTokens (P ++ o)) = P ++ r := by
  rw [wsTokens, splitOnP_append_not pySpaceChar P o hP]
  rcases hsplit : o.splitOnP pySpaceChar with - | ⟨t, ts⟩
  · exact absurd hsplit (List.splitOnP_ne_nil _ o)
  · rw [List.modifyHead_cons]
    have hempty : (P ++ t).isEmpty = false := by
      rcases P with - | ⟨p0, P'⟩
      · exact absurd rfl hne
      · rfl
    rw [List.filter_cons, if_pos (by rw [hempty]; rfl), underscoreJoin]
    rcases hts : ts.filter (fun t => !t.isEmpty) with - | ⟨u, us⟩
    · rw [hts, intercalate_single]
      exact ⟨t, rfl⟩
    · rw [hts, intercalate_cons_cons]
      exact ⟨t ++ '_' :: List.intercalate ['_'] (u :: us), by simp⟩

/-- The regex filter keeps a prefix of kept characters intact. -/
theorem keepFilter_append_good (P o : List Char) (hP : ∀ c ∈ P, keepChar c = true) :
    (P ++ o).filter keepChar = P ++ o.filter keepChar := by
  rw [List.filter_append]
  congr 1
  exact List.filter_eq_self.mpr hP

/-- `.strip("._")` on `"{A}_{I}_" ++ r`: the leading strip stops at the
first digit of `A`; the trailing strip either stops inside `r` (leaving
the full prefix and the separator) or consumes `r` and the trailing
separator, stopping at the last digit of `I`. Either way the result is
`natChars A ++ "_" ++ natChars I ++ s` with `s` empty or starting with
the separator. -/
theorem stripEdges_shape (A I : Nat) (r : List Char) :
    ∃ s, stripEdges (natChars A ++ '_' :: (natChars I ++ '_' :: r))
        = natChars A ++ '_' :: (natChars I ++ s) ∧
      (s = [] ∨ ∃ u, s = '_' :: u) := by
  obtain ⟨c, cs, hA⟩ : ∃ c cs, natChars A = c :: cs := by
    rcases hA : natChars A with - | ⟨c, cs⟩
    · exact absurd hA (natChars_ne_nil A)
    · exact ⟨c, cs, rfl⟩
  have hcdigit : stripEdgeChar c = false :=
    (natChars_good A c (by rw [hA]; exact List.mem_cons_self c cs)).2.2.1
  rw [stripEdges, hA, List.cons_append, List.dropWhile_cons,
    if_neg (by simp [hcdigit]), ← List.cons_append, ← hA, dropTrailing]
  have hrev : (natChars A ++ '_' :: (natChars I ++ '_' :: r)).reverse
      = r.reverse ++ '_' :: ((natChars I).reverse ++ '_' :: (natChars A).reverse) := by
    simp
  rw [hrev, List.dropWhile_append]
  rcases hw : r.reverse.dropWhile stripEdgeChar with - | ⟨w, ws⟩
  · rw [if_pos List.isEmpty_nil, List.dropWhile_cons, if_pos (by decide)]
    obtain ⟨d, ds, hI⟩ : ∃ d ds, (natChars I).reverse = d :: ds := by
      rcases hI : (natChars I).reverse with - | ⟨d, ds⟩
      · exact absurd (List.reverse_eq_nil_iff.mp hI) (natChars_ne_nil I)
      · exact ⟨d, ds, rfl⟩
    have hddigit : stripEdgeChar d = false := by
      refine (natChars_good I d (List.mem_reverse.mp ?_)).2.2.1
      rw [hI]
      exact List.mem_cons_self d ds
    rw [hI, List.cons_append, List.dropWhile_cons, if_neg (by simp [hddigit]),
      ← List.cons_append, ← hI]
    refine ⟨[], ?_, Or.inl rfl⟩
    simp
  · rw [if_neg (by simp)]
    refine ⟨'_' :: (w :: ws).reverse, ?_, Or.inr ⟨(w :: ws).reverse, rfl⟩⟩
    simp

/-- Shape of a derived photo filename: whatever the original filename, the
sanitized stored name is `str(A) ++ "_" ++ str(I) ++ s` where `s` is empty
or begins with an underscore. -/
theorem derived_shape (A I : Nat) (o : List Char) :
    ∃ s, (derived_photo_filename A I ⟨o⟩).data
        = natChars A ++ '_' :: (natChars I ++ s) ∧
      (s = [] ∨ ∃ u, s = '_' :: u) := by
  have hgood := prefix_good A I
  have hstep0 : (derived_photo_filename A I ⟨o⟩).data
      = stripEdges ((underscoreJoin (wsTokens (sepToSpace (asciiOnly
          ((natChars A ++ '_' :: (natChars I ++ ['_'])) ++ o))))).filter keepChar) := by
    rw [derived_photo_filename, secure_filename]
    simp
  rw [hstep0,
    asciiOnly_append_good _ o (fun c hc => (hgood c hc).2.2.2),
    sepToSpace_append_good _ _ (fun c hc => (hgood c hc).2.2.1)]
  obtain ⟨r, hjoin⟩ := join_tokens_append (natChars A ++ '_' :: (natChars I ++ ['_']))
    (sepToSpace (asciiOnly o)) (fun c hc => (hgood c hc).1)
    (by simp [natChars_ne_nil A])
  rw [hjoin, keepFilter_append_good _ _ (fun c hc => (hgood c hc).2.1)]
  have hassoc : (natChars A ++ '_' :: (natChars I ++ ['_'])) ++ r.filter keepChar
      = natChars A ++ '_' :: (natChars I ++ '_' :: r.filter keepChar) := by
    simp
  rw [hassoc]
  exact stripEdges_shape A I (r.filter keepChar)

/-- Parsing the two leading decimal fields back out of a derived name. -/
theorem parseIds_prefix (A I : Nat) (s : List Char)
    (hs : s = [] ∨ ∃ u, s = '_' :: u) :
    parseIds (natChars A ++ '_' :: (natChars I ++ s)) = (natChars A, natChars I) := by
  have hda : ∀ c ∈ natChars A, Char.isDigit c = true :=
    fun c hc => (natChars_good A c hc).2.2.2.2.2
  have hdi : ∀ c ∈ natChars I, Char.isDigit c = true :=
    fun c hc => (natChars_good I c hc).2.2.2.2.2
  have h1 : (natChars A ++ '_' :: (natChars I ++ s)).takeWhile Char.isDigit
      = natChars A := by
    rw [List.takeWhile_append_of_pos hda, List.takeWhile_cons, if_neg (by decide)]
    simp
  have h2 : (((natChars A ++ '_' :: (natChars I ++ s)).dropWhile
      Char.isDigit).drop 1).takeWhile Char.isDigit = natChars I := by
    rw [List.dropWhile_append_of_pos hda, List.dropWhile_cons, if_neg (by decide),
      List.drop_one, List.tail_cons, List.takeWhile_append_of_pos hdi]
    rcases hs with rfl | ⟨u, rfl⟩
    · simp
    · rw [List.takeWhile_cons, if_neg (by decide)]
      simp
  rw [parseIds, h1, h2]

/-- The audit id and item id are recoverable from the stored filename. -/
theorem derived_photo_filename_parse (A I : Nat) (o : String) :
    parseIds (derived_photo_filename A I o).data = (natChars A, natChars I) := by
  obtain ⟨s, hshape, hs⟩ := derived_shape A I o.data
  rw [show (⟨o.data⟩ : String) = o from rfl] at hshape
  rw [hshape]
  exact parseIds_prefix A I s hs

/-- Equal derived filenames force equal audit ids and equal item ids. -/
theorem derived_photo_filename_inj (a1 i1 a2 i2 : Nat) (o1 o2 : String)
    (h : derived_photo_filename a1 i1 o1 = derived_photo_filename a2 i2 o2) :
    a1 = a2 ∧ i1 = i2 := by
  have hp := derived_photo_filename_parse a1 i1 o1
  have hq := derived_photo_filename_parse a2 i2 o2
  rw [h, hq] at hp
  exact ⟨natChars_inj a2 a1 (congrArg Prod.fst hp) |>.symm,
    natChars_inj i2 i1 (congrArg Prod.snd hp) |>.symm⟩

/-- C8: the stored photo filename derived from (audit id, item id,
original filename) never collides across distinct (audit id, item id)
pairs, whatever the original filenames. -/
theorem photo_filenames_collision_free (a1 i1 a2 i2 : Nat) (o1 o2 : String)
    (h : a1 ≠ a2 ∨ i1 ≠ i2) :
    derived_photo_filename a1 i1 o1 ≠ derived_photo_filename a2 i2 o2 := by
  intro heq
  obtain ⟨ha, hi⟩ := derived_photo_filename_inj a1 i1 a2 i2 o1 o2 heq
  rcases h with h | h
  · exact h ha
  · exact h hi

/-- Witness for `photo_filenames_collision_free`: items 1 and 2 of audit 7
both uploading `photo.jpg` get distinct stored names. -/
theorem photo_filenames_collision_free_witness :
    ((7 : Nat) ≠ 7 ∨ (1 : Nat) ≠ 2) ∧
    derived_photo_filename 7 1 "photo.jpg" ≠ derived_photo_filename 7 2 "photo.jpg" ∧
    derived_photo_filename 7 1 "photo.jpg" = "7_1_photo.jpg" ∧
    derived_photo_filename 7 2 "photo.jpg" = "7_2_photo.jpg" :=
  ⟨Or.inr (by decide),
   photo_filenames_collision_free 7 1 7 2 "photo.jpg" "photo.jpg" (Or.inr (by decide)),
   by decide, by decide⟩
